import Mathlib

/-!
Verification of the apeople record store against its specification.

The Go sources are shallowly embedded: text is modelled as `List Char`
(Go strings are byte strings; all literals involved are ASCII), Go `int`
as `Int` (the counter logic performs no overflowing arithmetic), and
I/O effects as explicit state passing with explicit outcome oracles for
fallible writes.
-/

/-- Text is modelled as a list of characters. -/
abbrev Text := List Char

/- ============================================================
   Index counter (internal/parser/id_counter.go)
   ============================================================ -/

/-- `CounterData` from id_counter.go: the on-disk counter file contents
(`next_index_id`, `spec_version`). JSON (de)serialization is abstracted:
the counter-file slot of a directory directly holds a `CounterData`. -/
structure CounterData where
  NextIndexID : Int
  SpecVersion : Text
deriving DecidableEq, Repr

/-- `IDCounter` from id_counter.go: embeds `CounterData` (as in the Go
struct) plus the counter file path.  The mutex only serializes calls in
one process and has no effect on this sequential model. -/
structure IDCounter extends CounterData where
  filePath : Text
deriving DecidableEq, Repr

/-- The part of a directory the counter interacts with: the counter file
(absent or holding well-formed `CounterData`) and the parse results of
the files matching the contact glob: `some i` for a record file parsing
with `index_id = i`, `none` for an unparseable file. -/
structure Dir where
  counterFile : Option CounterData
  records : List (Option Int)
deriving DecidableEq, Repr

/-- `findMaxIndexID` from id_counter.go: fold over the directory's
matching files, skipping parse failures (`continue`), keeping the
largest `IndexID` seen, starting from 0. -/
def findMaxIndexID (records : List (Option Int)) : Int :=
  records.foldl
    (fun maxID r =>
      match r with
      | none => maxID
      | some i => if i > maxID then i else maxID)
    0

/-- `loadOrCreateCounter` from id_counter.go.  When the counter file is
absent, scan the records, set `NextIndexID := maxID + 1`, and save the
counter file before returning (the save can fail: `saveOk`).  When the
file is present, load it and default an empty `SpecVersion`.
(The unreadable-file and malformed-JSON error branches of the Go code
are outside this model: the counter-file slot holds parsed data.) -/
def loadOrCreateCounter (d : Dir) (saveOk : Bool) (path : Text) :
    Option (IDCounter × Dir) :=
  match d.counterFile with
  | none =>
    let maxID := findMaxIndexID d.records
    let counter : IDCounter :=
      { NextIndexID := maxID + 1
        SpecVersion := ("0.1.0").toList
        filePath := path }
    if saveOk then
      some (counter, { d with counterFile := some counter.toCounterData })
    else
      none
  | some cd =>
    let cd2 := if cd.SpecVersion = [] then { cd with SpecVersion := ("0.1.0").toList } else cd
    some ({ toCounterData := cd2, filePath := path }, d)

/-- `NextID` from id_counter.go: take the current value, increment,
save; on save failure decrement back and return `(0, error)`.  The
returned pair is `(id, errorFlag)`; a successful save atomically
replaces the counter file. -/
def IDCounter.NextID (c : IDCounter) (d : Dir) (saveOk : Bool) :
    (Int × Bool) × IDCounter × Dir :=
  let id := c.NextIndexID
  let c1 := { c with NextIndexID := c.NextIndexID + 1 }
  if saveOk then
    ((id, false), c1, { d with counterFile := some c1.toCounterData })
  else
    let c2 := { c1 with NextIndexID := c1.NextIndexID - 1 }
    ((0, true), c2, d)

/-- `n` successive successful `NextID` calls; returns the list of handed
out ids together with the final state. -/
def runNextIDs : IDCounter → Dir → Nat → List Int × IDCounter × Dir
  | c, d, 0 => ([], c, d)
  | c, d, n + 1 =>
    let r := c.NextID d true
    let rest := runNextIDs r.2.1 r.2.2 n
    (r.1.1 :: rest.1, rest.2)

/-- Operations a process may interleave on the store state that are
relevant to id allocation: an allocation attempt (whose save may fail),
deleting a record file, and adding a record file. -/
inductive StoreOp where
  | next (saveOk : Bool)
  | deleteRecord (j : Nat)
  | addRecord (r : Option Int)
deriving DecidableEq, Repr

/-- One store operation: `next` runs `NextID` (emitting the id when the
save succeeded), `deleteRecord` removes a record file (the counter is
untouched), `addRecord` adds one. -/
def stepOp (s : IDCounter × Dir) (op : StoreOp) : (IDCounter × Dir) × Option Int :=
  match op with
  | .next ok =>
    let r := s.1.NextID s.2 ok
    ((r.2.1, r.2.2), if r.1.2 then none else some r.1.1)
  | .deleteRecord j => ((s.1, { s.2 with records := s.2.records.eraseIdx j }), none)
  | .addRecord r => ((s.1, { s.2 with records := s.2.records ++ [r] }), none)

/-- Run a list of store operations, collecting every id handed out. -/
def runOps : IDCounter × Dir → List StoreOp → List Int × (IDCounter × Dir)
  | s, [] => ([], s)
  | s, op :: ops =>
    let r := stepOp s op
    let rest := runOps r.1 ops
    (r.2.elim rest.1 (· :: rest.1), rest.2)

/-- The directory with no counter file and no records. -/
def emptyDir : Dir := { counterFile := none, records := [] }

/-- The counter state `loadOrCreateCounter` builds on a fresh directory. -/
def freshCounter (path : Text) : IDCounter :=
  { NextIndexID := 1, SpecVersion := ("0.1.0").toList, filePath := path }

-- Helper lemmas about the counter state machine.

theorem NextID_true (c : IDCounter) (d : Dir) :
    c.NextID d true =
      ((c.NextIndexID, false),
        { c with NextIndexID := c.NextIndexID + 1 },
        { d with counterFile := some ⟨c.NextIndexID + 1, c.SpecVersion⟩ }) := by
  rfl

theorem NextID_false (c : IDCounter) (d : Dir) :
    c.NextID d false = ((0, true), c, d) := by
  obtain ⟨⟨n, v⟩, p⟩ := c
  simp [IDCounter.NextID]

theorem stepOp_next_true (s : IDCounter × Dir) :
    stepOp s (.next true) =
      (({ s.1 with NextIndexID := s.1.NextIndexID + 1 },
        { s.2 with counterFile := some ⟨s.1.NextIndexID + 1, s.1.SpecVersion⟩ }),
        some s.1.NextIndexID) := by
  simp [stepOp, NextID_true]

theorem stepOp_next_false (s : IDCounter × Dir) :
    stepOp s (.next false) = (s, none) := by
  simp [stepOp, NextID_false]

/-- The arithmetic sequence `start, start+1, ..., start+n-1`. -/
def idSeq (start : Int) : Nat → List Int
  | 0 => []
  | n + 1 => start :: idSeq (start + 1) n

theorem idSeq_eq_map (start : Int) (n : Nat) :
    idSeq start n = (List.range n).map (fun i : Nat => start + (i : Int)) := by
  induction n generalizing start with
  | zero => simp [idSeq]
  | succ n ih =>
    rw [idSeq, ih, List.range_succ_eq_map]
    simp only [List.map_cons, List.map_map, Nat.cast_zero, add_zero, List.cons.injEq,
      true_and]
    apply List.map_congr_left
    intro i _
    simp only [Function.comp_apply, Nat.succ_eq_add_one]
    push_cast
    ring

theorem idSeq_nodup (start : Int) (n : Nat) :
    (idSeq start n).Nodup := by
  rw [idSeq_eq_map]
  refine List.Nodup.map ?_ (List.nodup_range n)
  intro a b hab
  simp only at hab
  omega

theorem runNextIDs_values (c : IDCounter) (d : Dir) (n : Nat) :
    (runNextIDs c d n).1 = idSeq c.NextIndexID n := by
  induction n generalizing c d with
  | zero => simp [runNextIDs, idSeq]
  | succ n ih =>
    simp only [runNextIDs, NextID_true, idSeq]
    rw [ih]

theorem stepOp_counter_mono (s : IDCounter × Dir) (op : StoreOp) :
    s.1.NextIndexID ≤ (stepOp s op).1.1.NextIndexID := by
  cases op with
  | next ok =>
    cases ok
    · simp [stepOp_next_false]
    · simp only [stepOp_next_true]
      omega
  | deleteRecord j => simp [stepOp]
  | addRecord r => simp [stepOp]

theorem runOps_values_ge (s : IDCounter × Dir) (ops : List StoreOp) :
    ∀ x ∈ (runOps s ops).1, s.1.NextIndexID ≤ x := by
  induction ops generalizing s with
  | nil => simp [runOps]
  | cons op ops ih =>
    intro x hx
    simp only [runOps] at hx
    have hmono := stepOp_counter_mono s op
    cases hop : (stepOp s op).2 with
    | none =>
      rw [hop] at hx
      simp only [Option.elim] at hx
      exact le_trans hmono (ih _ x hx)
    | some v =>
      rw [hop] at hx
      simp only [Option.elim, List.mem_cons] at hx
      rcases hx with rfl | hx
      · -- the emitted value is the pre-step counter value
        cases op with
        | next ok =>
          cases ok
          · rw [stepOp_next_false] at hop
            simp at hop
          · rw [stepOp_next_true] at hop
            simp only [Option.some.injEq] at hop
            omega
        | deleteRecord j => simp [stepOp] at hop
        | addRecord r => simp [stepOp] at hop
      · exact le_trans hmono (ih _ x hx)

theorem runOps_values_sorted (s : IDCounter × Dir) (ops : List StoreOp) :
    (runOps s ops).1.Sorted (· < ·) := by
  induction ops generalizing s with
  | nil => simp [runOps, List.Sorted]
  | cons op ops ih =>
    simp only [runOps]
    cases hop : (stepOp s op).2 with
    | none => simpa using ih (stepOp s op).1
    | some v =>
      simp only [Option.elim]
      refine List.sorted_cons.mpr ⟨?_, ih (stepOp s op).1⟩
      intro b hb
      have hge := runOps_values_ge (stepOp s op).1 ops b hb
      -- the emitted value is strictly below the post-step counter value
      cases op with
      | next ok =>
        cases ok
        · rw [stepOp_next_false] at hop
          simp at hop
        · rw [stepOp_next_true] at hop
          simp only [Option.some.injEq] at hop
          rw [stepOp_next_true] at hge
          simp only at hge
          omega
      | deleteRecord j => simp [stepOp] at hop
      | addRecord r => simp [stepOp] at hop

/-- Claim C1: starting from a directory with no counter file and no records,
N successive successful `NextID` calls return exactly 1, 2, ..., N with no
repeats; and from any counter state, along any interleaving of allocations
(successful or failed) and record deletions/additions, the handed-out values
are strictly increasing (hence never reused), and deleting a record never
changes (in particular never decrements) the counter. -/
theorem claim_C1_counter_monotonicity :
    (∀ (path : Text) (N : Nat),
      loadOrCreateCounter emptyDir true path =
        some (freshCounter path,
          { counterFile := some ⟨1, ("0.1.0").toList⟩, records := [] }) ∧
      (runNextIDs (freshCounter path)
          { counterFile := some ⟨1, ("0.1.0").toList⟩, records := [] } N).1 =
        (List.range N).map (fun i : Nat => (i : Int) + 1) ∧
      ((runNextIDs (freshCounter path)
          { counterFile := some ⟨1, ("0.1.0").toList⟩, records := [] } N).1).Nodup) ∧
    (∀ (s : IDCounter × Dir) (ops : List StoreOp),
      ((runOps s ops).1).Sorted (· < ·) ∧ ((runOps s ops).1).Nodup) ∧
    (∀ (c : IDCounter) (d : Dir) (j : Nat),
      (stepOp (c, d) (.deleteRecord j)).1.1 = c) := by
  refine ⟨?_, ?_, ?_⟩
  · intro path N
    refine ⟨rfl, ?_, ?_⟩
    · rw [runNextIDs_values, idSeq_eq_map]
      apply List.map_congr_left
      intro i _
      show (1 : Int) + i = i + 1
      ring
    · rw [runNextIDs_values]
      exact idSeq_nodup _ _
  · intro s ops
    have hs := runOps_values_sorted s ops
    exact ⟨hs, List.Pairwise.imp (fun h => ne_of_lt h) hs⟩
  · intro c d j
    rfl

/-- Claim C2: when the counter file is absent, initialization scans the
records, sets the next value to `max + 1` (unparseable files contributing
nothing, the empty directory giving max 0), and persists that value before
any id is handed out; for records with indices 3 and 7 (in either order) the
first allocation returns 8. -/
theorem claim_C2_counter_self_healing :
    (∀ (d : Dir) (path : Text), d.counterFile = none →
      loadOrCreateCounter d true path =
        some ({ NextIndexID := findMaxIndexID d.records + 1,
                SpecVersion := ("0.1.0").toList, filePath := path },
              { d with counterFile := some ⟨findMaxIndexID d.records + 1, ("0.1.0").toList⟩ })) ∧
    (∀ (l1 l2 : List (Option Int)),
      findMaxIndexID (l1 ++ none :: l2) = findMaxIndexID (l1 ++ l2)) ∧
    findMaxIndexID [] = 0 ∧
    (∀ path,
      (loadOrCreateCounter { counterFile := none, records := [some 3, some 7] } true path).map
        (fun r => (r.1.NextID r.2 true).1.1) = some 8) ∧
    (∀ path,
      (loadOrCreateCounter { counterFile := none, records := [some 7, none, some 3] } true path).map
        (fun r => (r.1.NextID r.2 true).1.1) = some 8) := by
  refine ⟨?_, ?_, rfl, ?_, ?_⟩
  · intro d path h
    obtain ⟨cf, rs⟩ := d
    simp only at h
    subst h
    rfl
  · intro l1 l2
    simp only [findMaxIndexID, List.foldl_append, List.foldl_cons]
  · intro path
    rfl
  · intro path
    rfl

/-- Claim C9: when persisting the incremented counter fails, `NextID`
returns 0 with an error and rolls the in-memory next value back, so a
subsequent successful call returns exactly the id the failed call would have
returned. -/
theorem claim_C9_nextid_rollback :
    ∀ (c : IDCounter) (d : Dir),
      c.NextID d false = ((0, true), c, d) ∧
      ((c.NextID d false).2.1.NextID (c.NextID d false).2.2 true).1 =
        (c.NextIndexID, false) ∧
      (c.NextID d true).1 = (c.NextIndexID, false) := by
  intro c d
  refine ⟨NextID_false c d, ?_, ?_⟩
  · rw [NextID_false]
    simp only [NextID_true]
  · simp only [NextID_true]

/-- Witness for claim C2: the initialization equation evaluated on the
concrete directory holding record indices 3 and 7 plus one unparseable
file. -/
theorem claim_C2_witness :
    loadOrCreateCounter { counterFile := none, records := [some 3, none, some 7] } true ['p'] =
      some ({ NextIndexID := 8, SpecVersion := ("0.1.0").toList, filePath := ['p'] },
            { counterFile := some ⟨8, ("0.1.0").toList⟩, records := [some 3, none, some 7] }) := by
  have h := claim_C2_counter_self_healing.1
    { counterFile := none, records := [some 3, none, some 7] } ['p'] rfl
  rw [h]
  decide

/- ============================================================
   Text utilities shared by the codec and the log merge
   ============================================================ -/

/-- `strings.Index`: position of the first occurrence of `pat` in `s`
(`none` when there is no occurrence, matching Go's `-1`). -/
def indexOfSub (s pat : Text) : Option Nat :=
  if pat <+: s then some 0
  else
    match s with
    | [] => none
    | _ :: t => (indexOfSub t pat).map (· + 1)

/-- Split at the first occurrence of `pat`: the part before it and the
part after it (one step of `bytes.SplitN`). -/
def splitOnce (s pat : Text) : Option (Text × Text) :=
  match indexOfSub s pat with
  | none => none
  | some i => some (s.take i, s.drop (i + pat.length))

/-- `containsTag` from the parser: linear scan for an exact tag. -/
def containsTag (tags : List Text) (tag : Text) : Bool :=
  match tags with
  | [] => false
  | t :: ts => if t = tag then true else containsTag ts tag

/-- `strings.TrimRight(s, "\n")`: drop trailing newline characters. -/
def trimRightNewlines (s : Text) : Text :=
  (s.reverse.dropWhile (fun c => c = '\n')).reverse

/-- `strings.TrimSuffix`. -/
def trimSuffix (s suf : Text) : Text :=
  if suf <:+ s then s.take (s.length - suf.length) else s

/-- `filepath.Base`: the last path element, after stripping trailing
slashes; `"."` for the empty path, `"/"` when only slashes remain. -/
def baseName (p : Text) : Text :=
  if p = [] then ['.']
  else
    let q := (p.reverse.dropWhile (fun c => c = '/')).reverse
    if q = [] then ['/']
    else (q.reverse.takeWhile (fun c => c ≠ '/')).reverse

-- Lemmas about indexOfSub.

theorem indexOfSub_of_startsWith {s pat : Text} (h : pat <+: s) :
    indexOfSub s pat = some 0 := by
  rw [indexOfSub.eq_def, if_pos h]

theorem indexOfSub_cons_of_not_startsWith {a : Char} {t pat : Text}
    (h : ¬ pat <+: a :: t) :
    indexOfSub (a :: t) pat = (indexOfSub t pat).map (· + 1) := by
  rw [indexOfSub.eq_def, if_neg h]

theorem indexOfSub_eq_none_iff (s pat : Text) :
    indexOfSub s pat = none ↔ ∀ i, ¬ pat <+: s.drop i := by
  induction s with
  | nil =>
    constructor
    · intro h i hp
      rw [List.drop_nil] at hp
      rw [indexOfSub_of_startsWith hp] at h
      exact Option.noConfusion h
    · intro h
      have hp : ¬ pat <+: ([] : Text) := by simpa using h 0
      rw [indexOfSub.eq_def, if_neg hp]
  | cons a t ih =>
    constructor
    · intro h i hp
      by_cases hp0 : pat <+: a :: t
      · rw [indexOfSub_of_startsWith hp0] at h
        exact Option.noConfusion h
      · rw [indexOfSub_cons_of_not_startsWith hp0] at h
        cases hx : indexOfSub t pat with
        | some j =>
          rw [hx] at h
          simp at h
        | none =>
          match i with
          | 0 => exact hp0 (by simpa using hp)
          | i + 1 => exact (ih.mp hx) i (by simpa using hp)
    · intro h
      have hp0 : ¬ pat <+: a :: t := by simpa using h 0
      rw [indexOfSub_cons_of_not_startsWith hp0,
        ih.mpr (fun i => by simpa using h (i + 1))]
      rfl

/-- No occurrence of `pat` starts anywhere in `s`. -/
def NoOcc (pat s : Text) : Prop := ∀ i, ¬ pat <+: s.drop i

theorem indexOfSub_eq_none_iff_noOcc (s pat : Text) :
    indexOfSub s pat = none ↔ NoOcc pat s :=
  indexOfSub_eq_none_iff s pat

theorem indexOfSub_first {s pat : Text} {n : Nat} (h : indexOfSub s pat = some n) :
    ∀ i, i < n → ¬ pat <+: s.drop i := by
  induction s generalizing n with
  | nil =>
    by_cases hp : pat <+: ([] : Text)
    · rw [indexOfSub_of_startsWith hp] at h
      injection h with h
      omega
    · rw [indexOfSub.eq_def, if_neg hp] at h
      exact Option.noConfusion h
  | cons a t ih =>
    by_cases hp : pat <+: a :: t
    · rw [indexOfSub_of_startsWith hp] at h
      injection h with h
      omega
    · rw [indexOfSub_cons_of_not_startsWith hp] at h
      cases hx : indexOfSub t pat with
      | none =>
        rw [hx] at h
        simp at h
      | some m =>
        rw [hx] at h
        simp only [Option.map_some'] at h
        injection h with h
        intro i hi
        match i with
        | 0 => simpa using hp
        | i + 1 =>
          rw [List.drop_succ_cons]
          exact ih hx i (by omega)

theorem indexOfSub_sound {s pat : Text} {n : Nat} (h : indexOfSub s pat = some n) :
    pat <+: s.drop n := by
  induction s generalizing n with
  | nil =>
    by_cases hp : pat <+: ([] : Text)
    · rw [indexOfSub_of_startsWith hp] at h
      injection h with h
      subst h
      simpa using hp
    · rw [indexOfSub.eq_def, if_neg hp] at h
      exact Option.noConfusion h
  | cons a t ih =>
    by_cases hp : pat <+: a :: t
    · rw [indexOfSub_of_startsWith hp] at h
      injection h with h
      subst h
      simpa using hp
    · rw [indexOfSub_cons_of_not_startsWith hp] at h
      cases hx : indexOfSub t pat with
      | none =>
        rw [hx] at h
        simp at h
      | some m =>
        rw [hx] at h
        simp only [Option.map_some'] at h
        injection h with h
        subst h
        rw [List.drop_succ_cons]
        exact ih hx

theorem nl_mem_of_getLast? {A : Text} (h : A.getLast? = some '\n') : '\n' ∈ A := by
  have hx : '\n' ∈ A.getLast? := by simp [h]
  rcases List.mem_getLast?_eq_getLast hx with ⟨hne, heq⟩
  rw [heq]
  exact List.getLast_mem hne

theorem not_prefix_of_nl_boundary {pat X Y : Text} (hnl : '\n' ∉ pat)
    (hnp : ¬ pat <+: X) (hlast : X.getLast? = some '\n') : ¬ pat <+: X ++ Y := by
  intro hp
  rcases List.prefix_or_prefix_of_prefix hp (List.prefix_append X Y) with h1 | h2
  · exact hnp h1
  · exact hnl (h2.subset (nl_mem_of_getLast? hlast))

/-- The first occurrence of a newline-free pattern in `A ++ pat ++ B` is at
position `A.length`, provided `A` has no occurrence and ends with a newline. -/
theorem indexOfSub_append_boundary (pat A B : Text)
    (hnl : '\n' ∉ pat) (hA : NoOcc pat A)
    (hlast : A = [] ∨ A.getLast? = some '\n') :
    indexOfSub (A ++ (pat ++ B)) pat = some A.length := by
  induction A with
  | nil => simpa using indexOfSub_of_startsWith (List.prefix_append pat B)
  | cons a A' ih =>
    have hX : ¬ pat <+: a :: A' := by simpa using hA 0
    have hlast2 : (a :: A').getLast? = some '\n' := by
      rcases hlast with h | h
      · exact absurd h (by simp)
      · exact h
    have hstep : ¬ pat <+: (a :: A') ++ (pat ++ B) :=
      not_prefix_of_nl_boundary hnl hX hlast2
    rw [List.cons_append, indexOfSub_cons_of_not_startsWith (by simpa using hstep)]
    rw [ih (fun i => by simpa using hA (i + 1)) ?_]
    · rfl
    · cases A' with
      | nil => exact Or.inl rfl
      | cons b A2 =>
        refine Or.inr ?_
        rw [← List.getLast?_cons_cons (a := a)]
        exact hlast2

/-- The frontmatter delimiter `"---\n"` used by `bytes.SplitN`. -/
def delim : Text := ['-', '-', '-', '\n']


/-- The first occurrence of `delim` in `M ++ delim ++ B` is at position
`M.length` when `M` itself has no occurrence: no occurrence can straddle
the boundary because no proper nonempty suffix of `delim` is a prefix of
`delim`. -/
theorem indexOfSub_append_delim (M B : Text) (hM : NoOcc delim M) :
    indexOfSub (M ++ (delim ++ B)) delim = some M.length := by
  induction M with
  | nil => simpa using indexOfSub_of_startsWith (List.prefix_append delim B)
  | cons m M' ih =>
    have hd4 : delim.length = 4 := rfl
    have hX : ¬ delim <+: m :: M' := by simpa using hM 0
    have hstep : ¬ delim <+: (m :: M') ++ (delim ++ B) := by
      intro hp
      rcases List.prefix_or_prefix_of_prefix hp (List.prefix_append (m :: M') (delim ++ B))
        with h1 | h2
      · exact hX h1
      · obtain ⟨t, ht⟩ := h2
        have hlen2 : (m :: M').length + t.length = delim.length := by
          rw [← ht, List.length_append]
        have htd : t = delim.drop (m :: M').length := by
          rw [← ht, List.drop_left]
        have htp : t <+: delim ++ B := by
          have hp2 : (m :: M') ++ t <+: (m :: M') ++ (delim ++ B) := by
            rw [ht]
            exact hp
          exact (List.prefix_append_right_inj (m :: M')).mp hp2
        have hk : (m :: M').length = 1 ∨ (m :: M').length = 2 ∨
            (m :: M').length = 3 ∨ (m :: M').length = 4 := by
          have h1 : 1 ≤ (m :: M').length := by simp
          omega
        rcases hk with hk | hk | hk | hk
        · rw [hk] at htd
          subst htd
          rcases List.prefix_or_prefix_of_prefix htp (List.prefix_append delim B) with h3 | h4
          · revert h3
            decide
          · revert h4
            decide
        · rw [hk] at htd
          subst htd
          rcases List.prefix_or_prefix_of_prefix htp (List.prefix_append delim B) with h3 | h4
          · revert h3
            decide
          · revert h4
            decide
        · rw [hk] at htd
          subst htd
          rcases List.prefix_or_prefix_of_prefix htp (List.prefix_append delim B) with h3 | h4
          · revert h3
            decide
          · revert h4
            decide
        · have htnil : t = [] := List.length_eq_zero.mp (by omega)
          subst htnil
          rw [List.append_nil] at ht
          exact hX (ht ▸ List.prefix_refl delim)
    rw [List.cons_append, indexOfSub_cons_of_not_startsWith (by simpa using hstep)]
    rw [ih (fun i => by simpa using hM (i + 1))]
    rfl

-- NoOcc composition lemmas.

theorem noOcc_nil {pat : Text} (hpne : pat ≠ []) : NoOcc pat [] := by
  intro i hp
  rw [List.drop_nil] at hp
  exact hpne (List.prefix_nil.mp hp)

theorem noOcc_cons_nl {pat Y : Text} (hpne : pat ≠ []) (hnl : '\n' ∉ pat)
    (hY : NoOcc pat Y) : NoOcc pat ('\n' :: Y) := by
  intro i hp
  match i with
  | 0 =>
    rw [List.drop_zero] at hp
    cases pat with
    | nil => exact hpne rfl
    | cons p ps =>
      rw [List.cons_prefix_cons] at hp
      exact hnl (by simp [hp.1])
  | i + 1 =>
    rw [List.drop_succ_cons] at hp
    exact hY i hp

theorem noOcc_append {pat X Y : Text} (hnl : '\n' ∉ pat)
    (hX : NoOcc pat X) (hY : NoOcc pat Y) (hYh : Y.head? = some '\n') :
    NoOcc pat (X ++ Y) := by
  intro i hp
  by_cases hi : i ≤ X.length
  · rw [List.drop_append_of_le_length hi] at hp
    rcases List.prefix_or_prefix_of_prefix hp (List.prefix_append (X.drop i) Y) with h1 | h2
    · exact hX i h1
    · obtain ⟨t, ht⟩ := h2
      cases t with
      | nil =>
        rw [List.append_nil] at ht
        exact hX i (ht ▸ List.prefix_refl pat)
      | cons c cs =>
        have htY : (c :: cs) <+: Y := by
          have hp2 : X.drop i ++ (c :: cs) <+: X.drop i ++ Y := by
            rw [ht]
            exact hp
          exact (List.prefix_append_right_inj (X.drop i)).mp hp2
        have hc : c = '\n' := by
          obtain ⟨u, hu⟩ := htY
          rw [← hu] at hYh
          simpa using hYh
        refine hnl ?_
        rw [← ht, hc]
        simp
  · have hi2 : i = X.length + (i - X.length) := by omega
    rw [hi2, List.drop_append] at hp
    exact hY (i - X.length) hp

/- ============================================================
   Contact data model (internal/model) and status engine
   ============================================================ -/

/-- The fields of `model.Contact` that are persisted in the YAML
frontmatter (everything except the `yaml:"-"` runtime fields).
`time.Time` values are modelled as `Int` instants (nanoseconds, as in Go
durations); `*time.Time` as `Option Int`.  Enumeration-typed fields
(`RelationshipType`, `ContactStyle`) are Go string types and unrecognized
values are preserved, so they are modelled as `Text`. -/
structure PContact where
  Title : Text
  Date : Int
  Tags : List Text
  Identifier : Text
  IndexID : Int
  Email : Text
  Phone : Text
  RelationshipType : Text
  State : Text
  Label : Text
  ContactStyle : Text
  LastContacted : Option Int
  LastBumpDate : Option Int
  BumpCount : Int
  UpdatedAt : Int
  Company : Text
  Role : Text
  Location : Text
  Birthday : Text
  LinkedIn : Text
  Twitter : Text
  Website : Text
  Notes : Text
  CustomFrequencyDays : Int
  LastInteractionType : Text
  RelatedContactLabels : List Text
  RelatedPeople : List Text
  RelatedTasks : List Text
  RelatedIdeas : List Text
deriving DecidableEq, Repr

/-- `model.Contact`: the persisted fields plus the `yaml:"-"` runtime
fields (`FilePath`, `Content`, `DaysSince`, `OverdueStatus`).
Go's nil-versus-empty slice distinction is not modelled (`Tags` and the
relation arrays are plain lists), so `EnsureRelationSlices` is the
identity here. -/
structure Contact extends PContact where
  FilePath : Text
  Content : Text
  DaysSince : Int
  OverdueStatus : Text
deriving DecidableEq, Repr

/-- The zero value `model.Contact{}`. -/
def PContact.zero : PContact :=
  { Title := [], Date := 0, Tags := [], Identifier := [], IndexID := 0
    Email := [], Phone := [], RelationshipType := [], State := [], Label := []
    ContactStyle := [], LastContacted := none, LastBumpDate := none
    BumpCount := 0, UpdatedAt := 0, Company := [], Role := [], Location := []
    Birthday := [], LinkedIn := [], Twitter := [], Website := [], Notes := []
    CustomFrequencyDays := 0, LastInteractionType := []
    RelatedContactLabels := [], RelatedPeople := [], RelatedTasks := []
    RelatedIdeas := [] }

/-- The zero value of the full record. -/
def Contact.zero : Contact :=
  { toPContact := PContact.zero, FilePath := [], Content := [], DaysSince := 0,
    OverdueStatus := [] }

/-- Nanoseconds per 24-hour day (Go `time.Duration` unit). -/
def nsPerDay : Int := 86400000000000

/-- `GetFrequencyDays`: a positive custom override wins; otherwise close
and family map to 30, work to 60, network to 90, everything else to 0. -/
def Contact.GetFrequencyDays (c : Contact) : Int :=
  if c.CustomFrequencyDays > 0 then c.CustomFrequencyDays
  else if c.RelationshipType = ("close").toList ∨ c.RelationshipType = ("family").toList then 30
  else if c.RelationshipType = ("work").toList then 60
  else if c.RelationshipType = ("network").toList then 90
  else 0

/-- `DaysSinceContact`: -1 when never contacted, otherwise the whole
number of 24-hour periods since the last contact.  Go computes
`int(duration.Hours() / 24)`, a float division truncated toward zero;
`Int.tdiv` is the same truncation. -/
def Contact.DaysSinceContact (c : Contact) (now : Int) : Int :=
  match c.LastContacted with
  | none => -1
  | some t => Int.tdiv (now - t) nsPerDay

/-- `IsOverdue` from the model package. -/
def Contact.IsOverdue (c : Contact) (now : Int) : Bool :=
  if c.ContactStyle ≠ ("periodic").toList ∧ c.ContactStyle ≠ [] then false
  else if c.GetFrequencyDays = 0 then false
  else if c.DaysSinceContact now = -1 then true
  else decide (c.DaysSinceContact now > c.GetFrequencyDays)

/-- `NeedsAttention` from the model package. -/
def Contact.NeedsAttention (c : Contact) (now : Int) : Bool :=
  if c.ContactStyle ≠ ("periodic").toList ∧ c.ContactStyle ≠ [] then false
  else if c.GetFrequencyDays = 0 then false
  else if c.DaysSinceContact now = -1 then true
  else decide (c.DaysSinceContact now > c.GetFrequencyDays - 7) &&
    decide (c.DaysSinceContact now ≤ c.GetFrequencyDays)

/-- `IsWithinThreshold` from the model package. -/
def Contact.IsWithinThreshold (c : Contact) (now : Int) : Bool :=
  if c.ContactStyle ≠ ("periodic").toList ∧ c.ContactStyle ≠ [] then false
  else if c.GetFrequencyDays = 0 then false
  else if c.DaysSinceContact now = -1 then false
  else decide (c.DaysSinceContact now ≥ 0) &&
    decide (c.DaysSinceContact now ≤ Int.tdiv c.GetFrequencyDays 2)

/-- A periodic network contact never contacted: `DaysSinceContact = -1`. -/
def neverContacted : Contact :=
  { Contact.zero with
    ContactStyle := ("periodic").toList
    RelationshipType := ("network").toList }

/-- Counterexample for claim C3: a record in the claim's class (periodic
style, no positive custom frequency, frequency 90) whose `IsOverdue` and
`NeedsAttention` are both true although `daysSinceContact > freq` and
`freq - 7 < daysSinceContact ≤ freq` are both false: the never-contacted
record has `daysSinceContact = -1` and the code returns true for both
flags, so the claim's unqualified "overdue iff days > freq" and
"attention iff freq - 7 < days ≤ freq" both fail. -/
theorem claim_C3_counterexample :
    neverContacted.ContactStyle = ("periodic").toList ∧
    ¬ neverContacted.CustomFrequencyDays > 0 ∧
    neverContacted.GetFrequencyDays = 90 ∧
    neverContacted.IsOverdue 0 = true ∧
    ¬ (neverContacted.DaysSinceContact 0 > neverContacted.GetFrequencyDays) ∧
    neverContacted.NeedsAttention 0 = true ∧
    ¬ (neverContacted.GetFrequencyDays - 7 < neverContacted.DaysSinceContact 0 ∧
      neverContacted.DaysSinceContact 0 ≤ neverContacted.GetFrequencyDays) := by
  refine ⟨rfl, by decide, by decide, by decide, by decide, by decide, by decide⟩

/-- Claim C3 (amended): for a periodic-or-unset record with no positive
custom frequency and relationship type network (frequency 90): at
`daysSinceContact = 90` overdue is false and attention is true, at 91
overdue is true, at 45 fresh is true, at 46 fresh is false; and the
boundary characterizations hold for contacted records
(`daysSinceContact ≠ -1`): overdue iff days > 90, attention iff
90 - 7 < days ≤ 90; fresh iff 0 ≤ days ≤ 45 holds unconditionally; and
at `daysSinceContact = -1` (never contacted, or last contact about a
day in the future) the record is overdue, needs attention, and is not
fresh. -/
theorem claim_C3_status_boundaries (c : Contact) (now : Int)
    (hstyle : c.ContactStyle = ("periodic").toList ∨ c.ContactStyle = [])
    (hcust : ¬ c.CustomFrequencyDays > 0)
    (hrel : c.RelationshipType = ("network").toList) :
    (c.DaysSinceContact now = 90 →
      c.IsOverdue now = false ∧ c.NeedsAttention now = true) ∧
    (c.DaysSinceContact now = 91 → c.IsOverdue now = true) ∧
    (c.DaysSinceContact now = 45 → c.IsWithinThreshold now = true) ∧
    (c.DaysSinceContact now = 46 → c.IsWithinThreshold now = false) ∧
    (c.DaysSinceContact now ≠ -1 →
      ((c.IsOverdue now = true ↔ c.DaysSinceContact now > 90) ∧
       (c.NeedsAttention now = true ↔
         (90 - 7 < c.DaysSinceContact now ∧ c.DaysSinceContact now ≤ 90)))) ∧
    (c.IsWithinThreshold now = true ↔
      (0 ≤ c.DaysSinceContact now ∧ c.DaysSinceContact now ≤ 45)) ∧
    (c.DaysSinceContact now = -1 →
      c.IsOverdue now = true ∧ c.NeedsAttention now = true ∧
      c.IsWithinThreshold now = false) := by
  have hfreq : c.GetFrequencyDays = 90 := by
    unfold Contact.GetFrequencyDays
    rw [if_neg hcust, hrel]
    decide
  have hguard : ¬ (c.ContactStyle ≠ ("periodic").toList ∧ c.ContactStyle ≠ []) := by
    rcases hstyle with h | h <;> rw [h] <;> simp
  have hov : c.IsOverdue now =
      (if c.DaysSinceContact now = -1 then true
       else decide (c.DaysSinceContact now > 90)) := by
    unfold Contact.IsOverdue
    rw [if_neg hguard, hfreq]
    norm_num
  have hatt : c.NeedsAttention now =
      (if c.DaysSinceContact now = -1 then true
       else decide (c.DaysSinceContact now > 90 - 7) &&
         decide (c.DaysSinceContact now ≤ 90)) := by
    unfold Contact.NeedsAttention
    rw [if_neg hguard, hfreq]
    norm_num
  have hthr : c.IsWithinThreshold now =
      (if c.DaysSinceContact now = -1 then false
       else decide (c.DaysSinceContact now ≥ 0) &&
         decide (c.DaysSinceContact now ≤ 45)) := by
    unfold Contact.IsWithinThreshold
    rw [if_neg hguard, hfreq]
    norm_num [show Int.tdiv 90 2 = 45 from rfl]
  refine ⟨?_, ?_, ?_, ?_, ?_, ?_, ?_⟩
  · intro h
    rw [hov, hatt, h]
    exact ⟨by decide, by decide⟩
  · intro h
    rw [hov, h]
    decide
  · intro h
    rw [hthr, h]
    decide
  · intro h
    rw [hthr, h]
    decide
  · intro hne
    rw [hov, hatt, if_neg hne, if_neg hne]
    constructor
    · simp
    · simp
  · rw [hthr]
    by_cases hne : c.DaysSinceContact now = -1
    · rw [if_pos hne, hne]
      simp
    · rw [if_neg hne]
      simp
  · intro h
    rw [hov, hatt, hthr, h]
    exact ⟨by decide, by decide, by decide⟩

/-- Witness contact for the C3 boundary theorem: periodic, network,
last contacted at instant 0. -/
def cWitness : Contact :=
  { Contact.zero with
    ContactStyle := ("periodic").toList
    RelationshipType := ("network").toList
    LastContacted := some 0 }

/-- Witness for claim C3 (amended): the boundary facts evaluated on a
concrete contact at concrete times. -/
theorem claim_C3_witness :
    cWitness.DaysSinceContact (90 * nsPerDay) = 90 ∧
    cWitness.IsOverdue (90 * nsPerDay) = false ∧
    cWitness.NeedsAttention (90 * nsPerDay) = true ∧
    cWitness.IsWithinThreshold (45 * nsPerDay) = true ∧
    cWitness.IsWithinThreshold (46 * nsPerDay) = false ∧
    neverContacted.IsOverdue 0 = true ∧
    neverContacted.NeedsAttention 0 = true ∧
    neverContacted.IsWithinThreshold 0 = false := by
  have h90 := claim_C3_status_boundaries cWitness (90 * nsPerDay) (Or.inl rfl) (by decide) rfl
  have h45 := claim_C3_status_boundaries cWitness (45 * nsPerDay) (Or.inl rfl) (by decide) rfl
  have h46 := claim_C3_status_boundaries cWitness (46 * nsPerDay) (Or.inl rfl) (by decide) rfl
  have hnc := claim_C3_status_boundaries neverContacted 0 (Or.inl rfl) (by decide) rfl
  have hd90 : cWitness.DaysSinceContact (90 * nsPerDay) = 90 := by decide
  have hd45 : cWitness.DaysSinceContact (45 * nsPerDay) = 45 := by decide
  have hd46 : cWitness.DaysSinceContact (46 * nsPerDay) = 46 := by decide
  have hdnc : neverContacted.DaysSinceContact 0 = -1 := by decide
  have hm1 := hnc.2.2.2.2.2.2 hdnc
  exact ⟨hd90, (h90.1 hd90).1, (h90.1 hd90).2, h45.2.2.1 hd45, h46.2.2.2.1 hd46,
    hm1.1, hm1.2.1, hm1.2.2⟩

/- ============================================================
   Log merge: AppendInteractionLog (parser package)
   ============================================================ -/

/-- The designated interaction-log heading. -/
def logHeader : Text := ("## Interaction Log").toList

/-- Number of leading newline characters (the Go loop that advances
`insertPos` over the newlines directly following the heading). -/
def countLeadingNewlines : Text → Nat
  | [] => 0
  | c :: t => if c = '\n' then countLeadingNewlines t + 1 else 0

/-- `AppendInteractionLog` from the parser package.  When the heading
occurs, the entry (plus a newline) is spliced in right after the heading
and any newlines that immediately follow it; otherwise trailing newlines
are trimmed and a new section is appended. -/
def AppendInteractionLog (content entry : Text) : Text :=
  match indexOfSub content logHeader with
  | some idx =>
    content.take
        (idx + logHeader.length + countLeadingNewlines (content.drop (idx + logHeader.length)))
      ++ entry ++ '\n' ::
      content.drop
        (idx + logHeader.length + countLeadingNewlines (content.drop (idx + logHeader.length)))
  | none =>
    if trimRightNewlines content = [] then
      '\n' :: (logHeader ++ ('\n' :: '\n' :: (entry ++ ['\n'])))
    else
      trimRightNewlines content ++
        ('\n' :: '\n' :: (logHeader ++ ('\n' :: '\n' :: (entry ++ ['\n']))))

/-- Number of positions of `s` at which an occurrence of `pat` starts. -/
def countOcc (s pat : Text) : Nat :=
  (List.range (s.length + 1)).countP (fun i => decide (pat <+: s.drop i))

-- Helper lemmas for the log merge.

theorem countLeadingNewlines_replicate {rest : Text} (k : Nat)
    (hrest : rest.head? ≠ some '\n') :
    countLeadingNewlines (List.replicate k '\n' ++ rest) = k := by
  induction k with
  | zero =>
    simp only [List.replicate_zero, List.nil_append]
    cases rest with
    | nil => rfl
    | cons c t =>
      have hc : ¬ c = '\n' := by simpa using hrest
      simp [countLeadingNewlines, hc]
  | succ k ih =>
    simp only [List.replicate_succ, List.cons_append]
    rw [countLeadingNewlines, if_pos rfl, ih]

theorem trimRightNewlines_isPrefixOf (s : Text) : trimRightNewlines s <+: s := by
  unfold trimRightNewlines
  have h := List.dropWhile_suffix (l := s.reverse) (fun c => decide (c = '\n'))
  have h2 := List.reverse_prefix.mpr h
  rwa [List.reverse_reverse] at h2

theorem noOcc_mono {pat T S : Text} (hpne : pat ≠ []) (hTS : T <+: S)
    (hS : NoOcc pat S) : NoOcc pat T := by
  intro i hp
  by_cases hi : i ≤ T.length
  · obtain ⟨u, rfl⟩ := hTS
    have h := hS i
    rw [List.drop_append_of_le_length hi] at h
    exact h (hp.trans (List.prefix_append (T.drop i) u))
  · have : T.drop i = [] := by
      apply List.drop_eq_nil_of_le
      omega
    rw [this] at hp
    exact hpne (List.prefix_nil.mp hp)

/-- Splice behaviour of `AppendInteractionLog` when the heading's first
occurrence is at position `A.length`: the entry goes after the heading
and the `k` newlines that immediately follow it, before the remaining
content. -/
theorem appendLog_found (A rest entry : Text) (k : Nat)
    (hfirst : indexOfSub (A ++ (logHeader ++ (List.replicate k '\n' ++ rest))) logHeader =
      some A.length)
    (hrest : rest.head? ≠ some '\n') :
    AppendInteractionLog (A ++ (logHeader ++ (List.replicate k '\n' ++ rest))) entry =
      A ++ (logHeader ++ (List.replicate k '\n' ++ (entry ++ '\n' :: rest))) := by
  unfold AppendInteractionLog
  rw [hfirst]
  dsimp only
  have hassoc : A ++ (logHeader ++ (List.replicate k '\n' ++ rest)) =
      (A ++ logHeader) ++ (List.replicate k '\n' ++ rest) := by
    rw [List.append_assoc]
  have hlen : A.length + logHeader.length = (A ++ logHeader).length := by
    rw [List.length_append]
  have hdrop0 : (A ++ (logHeader ++ (List.replicate k '\n' ++ rest))).drop
      (A.length + logHeader.length) = List.replicate k '\n' ++ rest := by
    rw [hassoc, hlen, List.drop_left]
  rw [hdrop0, countLeadingNewlines_replicate k hrest]
  have htake : (A ++ (logHeader ++ (List.replicate k '\n' ++ rest))).take
      (A.length + logHeader.length + k) = (A ++ logHeader) ++ List.replicate k '\n' := by
    rw [hassoc, hlen, List.take_append, List.take_append_of_le_length (by simp),
      List.take_of_length_le (by simp)]
  have hdrop : (A ++ (logHeader ++ (List.replicate k '\n' ++ rest))).drop
      (A.length + logHeader.length + k) = rest := by
    rw [hassoc, hlen, List.drop_append, List.drop_left' (List.length_replicate k '\n')]
  rw [htake, hdrop]
  simp [List.append_assoc]

/-- Behaviour of `AppendInteractionLog` when the heading does not occur. -/
theorem appendLog_notfound (content entry : Text)
    (hno : indexOfSub content logHeader = none) :
    AppendInteractionLog content entry =
      if trimRightNewlines content = [] then
        '\n' :: (logHeader ++ ('\n' :: '\n' :: (entry ++ ['\n'])))
      else
        trimRightNewlines content ++
          ('\n' :: '\n' :: (logHeader ++ ('\n' :: '\n' :: (entry ++ ['\n'])))) := by
  unfold AppendInteractionLog
  rw [hno]

/-- When occurrences of `pat` start at exactly one position of `s`, the
occurrence count is 1. -/
theorem countOcc_eq_one (s pat : Text) (i0 : Nat) (hi0 : i0 ≤ s.length)
    (h : ∀ i, pat <+: s.drop i ↔ i = i0) : countOcc s pat = 1 := by
  unfold countOcc
  have hc : ∀ i ∈ List.range (s.length + 1),
      ((decide (pat <+: s.drop i)) = true ↔ (i == i0) = true) := by
    intro i _
    rw [decide_eq_true_eq, beq_iff_eq]
    exact h i
  rw [List.countP_congr hc]
  have : (List.range (s.length + 1)).countP (fun i => i == i0) =
      List.count i0 (List.range (s.length + 1)) := by
    rfl
  rw [this]
  exact List.count_eq_one_of_mem (List.nodup_range _) (List.mem_range.mpr (by omega))

/-- In `A ++ (pat ++ R)` with no occurrence in `A` (which ends in a
newline) and none in `R` (which starts with one), the only occurrence of
the newline-free pattern starts at `A.length`. -/
theorem occ_iff_of_boundary (pat A R : Text) (hpne : pat ≠ []) (hnl : '\n' ∉ pat)
    (hA : NoOcc pat A) (hlast : A = [] ∨ A.getLast? = some '\n')
    (hR : NoOcc pat R) (hRh : R.head? = some '\n') :
    ∀ i, (pat <+: (A ++ (pat ++ R)).drop i ↔ i = A.length) := by
  have hfirst := indexOfSub_append_boundary pat A R hnl hA hlast
  intro i
  constructor
  · intro hp
    by_cases hia : i < A.length
    · exact absurd hp (indexOfSub_first hfirst i hia)
    · by_cases hie : i = A.length
      · exact hie
      · exfalso
        have hi2 : i = A.length + (i - A.length) := by omega
        rw [hi2, List.drop_append] at hp
        have hj : 1 ≤ i - A.length := by omega
        by_cases hjp : i - A.length ≤ pat.length
        · rw [List.drop_append_of_le_length hjp] at hp
          have hnoX : NoOcc pat (pat.drop (i - A.length)) := by
            intro i2 hp2
            rw [List.drop_drop] at hp2
            have hle := hp2.length_le
            rw [List.length_drop] at hle
            have hpl : 1 ≤ pat.length := by
              cases pat with
              | nil => exact absurd rfl hpne
              | cons p ps => simp
            omega
          have hcomb := noOcc_append hnl hnoX hR hRh
          exact hcomb 0 (by simpa using hp)
        · have hj3 : i - A.length = pat.length + (i - A.length - pat.length) := by omega
          rw [hj3, List.drop_append] at hp
          exact hR _ hp
  · intro hie
    subst hie
    exact indexOfSub_sound hfirst

/-- Counterexample for claim C4: for the body consisting of the heading,
a blank line and one existing entry, the code inserts the new entry
after the blank line (which therefore stays between the heading and the
new entry), not immediately after the heading line with the blank line
preserved after the entry, as the claim states. -/
theorem claim_C4_counterexample :
    AppendInteractionLog (logHeader ++ ("\n\n- old\n").toList) (("- new").toList) =
      logHeader ++ ("\n\n- new\n- old\n").toList ∧
    AppendInteractionLog (logHeader ++ ("\n\n- old\n").toList) (("- new").toList) ≠
      logHeader ++ ("\n- new\n\n- old\n").toList := by
  exact ⟨by decide, by decide⟩

/-- Claim C4 (amended): when the heading's first occurrence is at
position `pre.length`, the new entry plus a newline is inserted after
the heading and the `k` newlines that immediately follow it — those
newlines are preserved between the heading and the new entry — and
before all existing content of the section. -/
theorem claim_C4_insertion (pre rest entry : Text) (k : Nat)
    (hfirst : indexOfSub (pre ++ (logHeader ++ (List.replicate k '\n' ++ rest)))
      logHeader = some pre.length)
    (hrest : rest.head? ≠ some '\n') :
    AppendInteractionLog (pre ++ (logHeader ++ (List.replicate k '\n' ++ rest))) entry =
      pre ++ (logHeader ++ (List.replicate k '\n' ++ (entry ++ '\n' :: rest))) :=
  appendLog_found pre rest entry k hfirst hrest

/-- Witness for claim C4 (amended): concrete insertion below the heading
and its blank line, with one existing entry. -/
theorem claim_C4_witness :
    AppendInteractionLog
        (([] : Text) ++ (logHeader ++ (List.replicate 2 '\n' ++ ("- old\n").toList)))
        (("- new").toList) =
      ([] : Text) ++ (logHeader ++ (List.replicate 2 '\n' ++
        (("- new").toList ++ '\n' :: ("- old\n").toList))) := by
  exact claim_C4_insertion [] (("- old\n").toList) (("- new").toList) 2 (by decide) (by decide)

/-- Counterexample for claim C7: (1) `AppendInteractionLog` trims only
trailing newlines, not all trailing whitespace: on a body ending in a
space the space survives, contradicting "trims trailing whitespace";
(2) when an entry itself contains the heading, calling twice leaves two
heading occurrences, contradicting "exactly one occurrence" for
arbitrary entries. -/
theorem claim_C7_counterexample :
    (AppendInteractionLog (("x ").toList) (("- e").toList) =
        ("x \n\n## Interaction Log\n\n- e\n").toList ∧
      AppendInteractionLog (("x ").toList) (("- e").toList) ≠
        ("x\n\n## Interaction Log\n\n- e\n").toList) ∧
    countOcc
      (AppendInteractionLog (AppendInteractionLog (("B").toList) logHeader)
        (("- b").toList)) logHeader = 2 := by
  exact ⟨⟨by decide, by decide⟩, by decide⟩

/-- Claim C7 (amended): on a body with no occurrence of the heading,
`AppendInteractionLog` trims trailing newlines (not all whitespace),
then appends one blank line, the heading, a blank line and the entry
(the blank line before the heading collapsing when nothing remains after
the trim); calling it twice with entries that are nonempty, do not start
with a newline and do not contain the heading yields exactly one heading
occurrence with the second entry placed before the first. -/
theorem claim_C7_new_section (content e1 e2 : Text)
    (hc : NoOcc logHeader content) (h1ne : e1 ≠ []) (h1h : e1.head? ≠ some '\n')
    (hno1 : NoOcc logHeader e1) (hno2 : NoOcc logHeader e2) :
    AppendInteractionLog content e1 =
      (if trimRightNewlines content = [] then
        '\n' :: (logHeader ++ ('\n' :: '\n' :: (e1 ++ ['\n'])))
      else
        trimRightNewlines content ++
          ('\n' :: '\n' :: (logHeader ++ ('\n' :: '\n' :: (e1 ++ ['\n']))))) ∧
    AppendInteractionLog (AppendInteractionLog content e1) e2 =
      (if trimRightNewlines content = [] then
        '\n' :: (logHeader ++ ('\n' :: '\n' :: (e2 ++ '\n' :: (e1 ++ ['\n']))))
      else
        trimRightNewlines content ++
          ('\n' :: '\n' :: (logHeader ++ ('\n' :: '\n' :: (e2 ++ '\n' :: (e1 ++ ['\n'])))))) ∧
    countOcc (AppendInteractionLog (AppendInteractionLog content e1) e2) logHeader = 1 := by
  have hpne : logHeader ≠ [] := by decide
  have hnl : '\n' ∉ logHeader := by decide
  have hnoidx : indexOfSub content logHeader = none := (indexOfSub_eq_none_iff _ _).mpr hc
  have ha := appendLog_notfound content e1 hnoidx
  have hrest1 : (e1 ++ ['\n']).head? ≠ some '\n' := by
    cases e1 with
    | nil => exact absurd rfl h1ne
    | cons c cs => simpa using h1h
  have hn1 : NoOcc logHeader ['\n'] := noOcc_cons_nl hpne hnl (noOcc_nil hpne)
  have hnn : NoOcc logHeader ['\n', '\n'] := noOcc_cons_nl hpne hnl hn1
  have hRe1 : NoOcc logHeader (e1 ++ ['\n']) := noOcc_append hnl hno1 hn1 rfl
  have hR : NoOcc logHeader ('\n' :: '\n' :: (e2 ++ '\n' :: (e1 ++ ['\n']))) := by
    refine noOcc_cons_nl hpne hnl (noOcc_cons_nl hpne hnl ?_)
    exact noOcc_append hnl hno2 (noOcc_cons_nl hpne hnl hRe1) rfl
  have hb : AppendInteractionLog (AppendInteractionLog content e1) e2 =
      (if trimRightNewlines content = [] then
        '\n' :: (logHeader ++ ('\n' :: '\n' :: (e2 ++ '\n' :: (e1 ++ ['\n']))))
      else
        trimRightNewlines content ++
          ('\n' :: '\n' :: (logHeader ++ ('\n' :: '\n' :: (e2 ++ '\n' :: (e1 ++ ['\n'])))))) := by
    by_cases hT : trimRightNewlines content = []
    · rw [ha, if_pos hT, if_pos hT]
      have hfirst := indexOfSub_append_boundary logHeader ['\n']
        (List.replicate 2 '\n' ++ (e1 ++ ['\n'])) hnl hn1 (Or.inr rfl)
      exact appendLog_found ['\n'] (e1 ++ ['\n']) e2 2 hfirst hrest1
    · rw [ha, if_neg hT, if_neg hT]
      have hnoT : NoOcc logHeader (trimRightNewlines content) :=
        noOcc_mono hpne (trimRightNewlines_isPrefixOf content) hc
      have hA : NoOcc logHeader (trimRightNewlines content ++ ['\n', '\n']) :=
        noOcc_append hnl hnoT hnn rfl
      have hlastA : (trimRightNewlines content ++ ['\n', '\n']).getLast? = some '\n' := by
        rw [show trimRightNewlines content ++ ['\n', '\n'] =
          (trimRightNewlines content ++ ['\n']) ++ ['\n'] by simp]
        exact List.getLast?_concat _
      have hfirst := indexOfSub_append_boundary logHeader
        (trimRightNewlines content ++ ['\n', '\n'])
        (List.replicate 2 '\n' ++ (e1 ++ ['\n'])) hnl hA (Or.inr hlastA)
      have happ := appendLog_found (trimRightNewlines content ++ ['\n', '\n'])
        (e1 ++ ['\n']) e2 2 hfirst hrest1
      simp only [List.append_assoc] at happ
      exact happ
  refine ⟨ha, hb, ?_⟩
  rw [hb]
  by_cases hT : trimRightNewlines content = []
  · rw [if_pos hT]
    refine countOcc_eq_one _ _ 1 (by simp) ?_
    exact occ_iff_of_boundary logHeader ['\n']
      ('\n' :: '\n' :: (e2 ++ '\n' :: (e1 ++ ['\n']))) hpne hnl hn1 (Or.inr rfl) hR rfl
  · rw [if_neg hT]
    have hnoT : NoOcc logHeader (trimRightNewlines content) :=
      noOcc_mono hpne (trimRightNewlines_isPrefixOf content) hc
    have hA : NoOcc logHeader (trimRightNewlines content ++ ['\n', '\n']) :=
      noOcc_append hnl hnoT hnn rfl
    have hlastA : (trimRightNewlines content ++ ['\n', '\n']).getLast? = some '\n' := by
      rw [show trimRightNewlines content ++ ['\n', '\n'] =
        (trimRightNewlines content ++ ['\n']) ++ ['\n'] by simp]
      exact List.getLast?_concat _
    rw [show trimRightNewlines content ++
        ('\n' :: '\n' :: (logHeader ++ ('\n' :: '\n' :: (e2 ++ '\n' :: (e1 ++ ['\n']))))) =
        (trimRightNewlines content ++ ['\n', '\n']) ++
          (logHeader ++ ('\n' :: '\n' :: (e2 ++ '\n' :: (e1 ++ ['\n'])))) by
      simp [List.append_assoc]]
    refine countOcc_eq_one _ _ (trimRightNewlines content ++ ['\n', '\n']).length ?_ ?_
    · simp only [List.length_append]
      omega
    · exact occ_iff_of_boundary logHeader (trimRightNewlines content ++ ['\n', '\n'])
        ('\n' :: '\n' :: (e2 ++ '\n' :: (e1 ++ ['\n']))) hpne hnl hA (Or.inr hlastA) hR rfl

/-- Witness for claim C7 (amended): the two-call scenario evaluated on a
concrete body and entries. -/
theorem claim_C7_witness :
    AppendInteractionLog (AppendInteractionLog (("B").toList) (("- a").toList))
      (("- b").toList) = ("B\n\n## Interaction Log\n\n- b\n- a\n").toList ∧
    countOcc (AppendInteractionLog (AppendInteractionLog (("B").toList) (("- a").toList))
      (("- b").toList)) logHeader = 1 := by
  have h := claim_C7_new_section (("B").toList) (("- a").toList) (("- b").toList)
    ((indexOfSub_eq_none_iff _ _).mp (by decide)) (by decide) (by decide)
    ((indexOfSub_eq_none_iff _ _).mp (by decide)) ((indexOfSub_eq_none_iff _ _).mp (by decide))
  constructor
  · rw [h.2.1]
    decide
  · exact h.2.2

/- ============================================================
   Record codec: ParseContactFile / SaveContactFile (part_003)
   ============================================================ -/

/-- External collaborators of the codec, abstracted: the YAML library
(`yaml.Marshal` / `yaml.Unmarshal` restricted to the persisted fields of
a contact) and Go's time formatting used for generated filenames.  The
claims state the assumptions they need about these functions as
hypotheses. -/
structure Env where
  marshal : PContact → Text
  unmarshal : Text → Option PContact
  fmtDate : Int → Text

/-- The type-sentinel tag required of every contact record. -/
def contactTag : Text := ("contact").toList

/-- The parse error cases of `ParseContactFile`. -/
inductive PErr where
  | noFrontmatter
  | frontmatterParse
  | notContact
deriving DecidableEq, Repr

/-- `sanitizeName`: keep only lowercase letters, digits and hyphens. -/
def sanitizeName (name : Text) : Text :=
  name.filter (fun ch => ('a' ≤ ch ∧ ch ≤ 'z') ∨ ('0' ≤ ch ∧ ch ≤ '9') ∨ ch = '-')

/-- `extractIdent`: the identifier the parser derives from a filename —
the basename up to the first `--`, after dropping a `.md` suffix;
empty when there is no `--` (the Go code then leaves the field alone,
which for an empty field is the same thing). -/
def extractIdent (path : Text) : Text :=
  match indexOfSub (trimSuffix (baseName path) ((".md").toList)) (("--").toList) with
  | some i => (trimSuffix (baseName path) ((".md").toList)).take i
  | none => []

/-- `GenerateFilename`: `{date}--{slug}__contact.md`, where the slug is
the lowercased title with spaces replaced by hyphens and sanitized.
(`Char.toLower` models Go's Unicode lowercasing on the ASCII range.) -/
def GenerateFilename (env : Env) (c : Contact) (now : Int) : Text :=
  env.fmtDate (if c.Date = 0 then now else c.Date) ++ ("--").toList ++
    sanitizeName ((c.Title.map Char.toLower).map (fun ch => if ch = ' ' then '-' else ch)) ++
    ("__contact.md").toList

/-- The success path of `ParseContactFile` once the frontmatter decoded
to `p`: set the runtime fields, fall back to the filename-derived
identifier when the frontmatter has none, then compute `DaysSince` and
`OverdueStatus`. -/
def decodeOk (p : PContact) (path body : Text) (now : Int) : Contact :=
  let c0 : Contact :=
    { toPContact := p, FilePath := path, Content := body, DaysSince := 0,
      OverdueStatus := [] }
  let c1 := if c0.Identifier = [] then { c0 with Identifier := extractIdent path } else c0
  let c2 := { c1 with DaysSince := c1.DaysSinceContact now }
  { c2 with OverdueStatus :=
      if c2.IsOverdue now then ("overdue").toList
      else if c2.NeedsAttention now then ("attention").toList
      else if c2.IsWithinThreshold now then ("good").toList
      else [] }

/-- `ParseContactFile` from part_003: split the bytes at the first two
`"---\n"` delimiters (`bytes.SplitN(content, "---\n", 3)`; anything
before the first delimiter is discarded, the remainder after the second
is the body), decode the frontmatter, require the `"contact"` tag, and
return the contact — or the zero contact paired with an error. -/
def ParseContactFile (env : Env) (path bytes : Text) (now : Int) :
    Contact × Option PErr :=
  match splitOnce bytes delim with
  | none => (Contact.zero, some PErr.noFrontmatter)
  | some pr1 =>
    match splitOnce pr1.2 delim with
    | none => (Contact.zero, some PErr.noFrontmatter)
    | some pr2 =>
      match env.unmarshal pr2.1 with
      | none => (Contact.zero, some PErr.frontmatterParse)
      | some p =>
        if containsTag p.Tags contactTag then
          (decodeOk p path pr2.2 now, none)
        else
          (Contact.zero, some PErr.notContact)

/-- `SaveContactFile` from part_003: generate a filename when the
contact has none, refresh `UpdatedAt` to the current time, and write
`"---\n" + frontmatter + "---\n" + content`.  The result is the pair
(path written to, bytes written). -/
def SaveContactFile (env : Env) (c : Contact) (now2 : Int) : Text × Text :=
  (if c.FilePath = [] then GenerateFilename env c now2 else c.FilePath,
    delim ++ (env.marshal ({ c with UpdatedAt := now2 } : Contact).toPContact ++
      (delim ++ c.Content)))

/-- The frontmatter block `bytes.SplitN` isolates: the text between the
first two delimiter occurrences (`none` when there are fewer than two). -/
def frontmatterOf (bytes : Text) : Option Text :=
  match splitOnce bytes delim with
  | none => none
  | some pr1 => (splitOnce pr1.2 delim).map (fun pr2 => pr2.1)

/-- Claim C6: decoding fails exactly when the input has fewer than two
delimiter occurrences, or the frontmatter does not unmarshal, or the
decoded tag list lacks the "contact" sentinel; and every failure
returns the zero record.  (Conversely, inputs free of all three defects
decode successfully.) -/
theorem claim_C6_decode_errors (env : Env) (path bytes : Text) (now : Int) :
    ((ParseContactFile env path bytes now).2.isSome = true ↔
      (frontmatterOf bytes = none ∨
        (∃ fm, frontmatterOf bytes = some fm ∧ env.unmarshal fm = none) ∨
        (∃ fm p, frontmatterOf bytes = some fm ∧ env.unmarshal fm = some p ∧
          containsTag p.Tags contactTag = false))) ∧
    ((ParseContactFile env path bytes now).2.isSome = true →
      (ParseContactFile env path bytes now).1 = Contact.zero) := by
  cases h1 : splitOnce bytes delim with
  | none => simp [ParseContactFile, frontmatterOf, h1]
  | some pr1 =>
    cases h2 : splitOnce pr1.2 delim with
    | none => simp [ParseContactFile, frontmatterOf, h1, h2]
    | some pr2 =>
      cases h3 : env.unmarshal pr2.1 with
      | none => simp [ParseContactFile, frontmatterOf, h1, h2, h3]
      | some p =>
        cases h4 : containsTag p.Tags contactTag with
        | true => simp [ParseContactFile, frontmatterOf, h1, h2, h3, h4]
        | false => simp [ParseContactFile, frontmatterOf, h1, h2, h3, h4]

/-- A concrete frontmatter value used by the codec witnesses: tagged as
a contact, with a nonempty identifier. -/
def pW0 : PContact :=
  { PContact.zero with Tags := [contactTag], Identifier := ['i'], UpdatedAt := 5 }

/-- A concrete instantiation of the abstracted YAML layer used by the
codec witnesses: everything marshals to `"y"`, and exactly `"y"`
unmarshals (to `pW0`). -/
def envW : Env :=
  { marshal := fun _ => ['y']
    unmarshal := fun s => if s = ['y'] then some pW0 else none
    fmtDate := fun _ => [] }

/-- Witness for claim C6: on input with no delimiter at all, decoding
fails and returns the zero record. -/
theorem claim_C6_witness :
    (ParseContactFile envW ['p'] ['z'] 0).2.isSome = true ∧
    (ParseContactFile envW ['p'] ['z'] 0).1 = Contact.zero := by
  have h := claim_C6_decode_errors envW ['p'] ['z'] 0
  have hs : (ParseContactFile envW ['p'] ['z'] 0).2.isSome = true :=
    h.1.mpr (Or.inl (by decide))
  exact ⟨hs, h.2 hs⟩

theorem splitOnce_delim_start (X : Text) :
    splitOnce (delim ++ X) delim = some ([], X) := by
  unfold splitOnce
  rw [indexOfSub_of_startsWith (List.prefix_append delim X)]
  simp only [List.take_zero, Nat.zero_add]
  rw [List.drop_left' (by rfl)]

theorem splitOnce_delim_mid (M B : Text) (hM : NoOcc delim M) :
    splitOnce (M ++ (delim ++ B)) delim = some (M, B) := by
  unfold splitOnce
  rw [indexOfSub_append_delim M B hM]
  dsimp only
  have ht : (M ++ (delim ++ B)).take M.length = M := by
    rw [show M ++ (delim ++ B) = M ++ (delim ++ B) from rfl, List.take_append_of_le_length le_rfl,
      List.take_length]
  have hd : (M ++ (delim ++ B)).drop (M.length + delim.length) = B := by
    rw [show M ++ (delim ++ B) = (M ++ delim) ++ B by simp, show M.length + delim.length =
      (M ++ delim).length by simp, List.drop_left]
  rw [ht, hd]

/-- Re-decoding an already-decoded contact (with its `UpdatedAt`
refreshed) through the success path reproduces it: the runtime fields
are recomputed from the same persisted fields, and the identifier
fallback is idempotent. -/
theorem decodeOk_stable (p : PContact) (path body : Text) (now now2 : Int) :
    decodeOk { (decodeOk p path body now).toPContact with UpdatedAt := now2 } path body now =
      { decodeOk p path body now with UpdatedAt := now2 } := by
  unfold decodeOk
  by_cases h1 : p.Identifier = []
  · by_cases h2 : extractIdent path = []
    · simp [h1, h2]
      repeat' apply And.intro
      all_goals rfl
    · simp [h1, h2]
      repeat' apply And.intro
      all_goals rfl
  · simp [h1]
    repeat' apply And.intro
    all_goals rfl

theorem decodeOk_FilePath (p : PContact) (path body : Text) (now : Int) :
    (decodeOk p path body now).FilePath = path := by
  unfold decodeOk
  by_cases h : p.Identifier = [] <;> simp [h]

theorem decodeOk_Content (p : PContact) (path body : Text) (now : Int) :
    (decodeOk p path body now).Content = body := by
  unfold decodeOk
  by_cases h : p.Identifier = [] <;> simp [h]

theorem decodeOk_Tags (p : PContact) (path body : Text) (now : Int) :
    (decodeOk p path body now).Tags = p.Tags := by
  unfold decodeOk
  by_cases h : p.Identifier = [] <;> simp [h]

/-- Claim C5: a record `r` obtained from a successful decode, once saved
(refreshing `UpdatedAt` to the save time) and decoded again from the
written bytes at the same time `now`, is reproduced field-for-field
except for `UpdatedAt`.  The abstracted YAML library is assumed to
round-trip the marshalled record and to emit no `"---\n"` inside the
frontmatter (both true of yaml.v3 on this struct). -/
theorem claim_C5_roundtrip (env : Env) (path bytes : Text) (now now2 : Int) (r : Contact)
    (hdec : ParseContactFile env path bytes now = (r, none))
    (hpath : path ≠ [])
    (hrt : env.unmarshal (env.marshal ({ r with UpdatedAt := now2 } : Contact).toPContact) =
      some ({ r with UpdatedAt := now2 } : Contact).toPContact)
    (hnd : NoOcc delim (env.marshal ({ r with UpdatedAt := now2 } : Contact).toPContact)) :
    (SaveContactFile env r now2).1 = r.FilePath ∧
    ParseContactFile env (SaveContactFile env r now2).1 (SaveContactFile env r now2).2 now =
      ({ r with UpdatedAt := now2 }, none) := by
  unfold ParseContactFile at hdec
  cases h1 : splitOnce bytes delim with
  | none =>
    rw [h1] at hdec
    simp at hdec
  | some pr1 =>
    rw [h1] at hdec
    dsimp only at hdec
    cases h2 : splitOnce pr1.2 delim with
    | none =>
      rw [h2] at hdec
      simp at hdec
    | some pr2 =>
      rw [h2] at hdec
      dsimp only at hdec
      cases h3 : env.unmarshal pr2.1 with
      | none =>
        rw [h3] at hdec
        simp at hdec
      | some p =>
        rw [h3] at hdec
        dsimp only at hdec
        cases h4 : containsTag p.Tags contactTag with
        | false =>
          rw [h4] at hdec
          simp at hdec
        | true =>
          rw [h4] at hdec
          simp only [if_true, Prod.mk.injEq, and_true] at hdec
          subst hdec
          have hTu : ∀ (c : Contact) (t : Int),
              ({ c with UpdatedAt := t } : Contact).toPContact.Tags = c.Tags :=
            fun c t => rfl
          have hsave1 : (SaveContactFile env (decodeOk p path pr2.2 now) now2).1 = path := by
            unfold SaveContactFile
            dsimp only
            rw [decodeOk_FilePath, if_neg hpath]
          have hsave2 : (SaveContactFile env (decodeOk p path pr2.2 now) now2).2 =
              delim ++
                (env.marshal
                    ({ decodeOk p path pr2.2 now with UpdatedAt := now2 } : Contact).toPContact ++
                  (delim ++ pr2.2)) := by
            unfold SaveContactFile
            dsimp only
            rw [decodeOk_Content]
          refine ⟨by rw [hsave1, decodeOk_FilePath], ?_⟩
          rw [hsave1, hsave2]
          unfold ParseContactFile
          rw [splitOnce_delim_start]
          dsimp only
          rw [splitOnce_delim_mid _ _ hnd]
          dsimp only
          rw [hrt]
          dsimp only
          have htag : containsTag
              (({ decodeOk p path pr2.2 now with UpdatedAt := now2 } : Contact).toPContact).Tags
              contactTag = true := by
            rw [hTu, decodeOk_Tags]
            exact h4
          rw [if_pos htag]
          exact congrArg (fun z => (z, (none : Option PErr)))
            (decodeOk_stable p path pr2.2 now now2)

/-- The bytes of a concrete contact file: delimiter, the frontmatter
`"y"` recognised by `envW`, delimiter, empty body. -/
def bytesW : Text := delim ++ (['y'] ++ (delim ++ []))

/-- The record decoded from `bytesW`. -/
def rW : Contact := (ParseContactFile envW ['f'] bytesW 7).1

/-- Witness for claim C5: the round trip evaluated on a concrete record
and environment. -/
theorem claim_C5_witness :
    ParseContactFile envW (SaveContactFile envW rW 5).1 (SaveContactFile envW rW 5).2 7 =
      ({ rW with UpdatedAt := 5 }, none) := by
  have h := claim_C5_roundtrip envW ['f'] bytesW 7 5 rW (by decide) (by decide)
    (by decide) ((indexOfSub_eq_none_iff _ _).mp (by decide))
  exact h.2

/- ============================================================
   Directory scan: FindContacts (part_003)
   ============================================================ -/

/-- Byte-wise lexicographic order on text (Go's `<` on strings; UTF-8
byte order coincides with code-point order). -/
def lexLe : Text → Text → Bool
  | [], _ => true
  | _ :: _, [] => false
  | a :: as, b :: bs =>
    if a.toNat < b.toNat then true
    else if b.toNat < a.toNat then false
    else lexLe as bs

theorem lexLe_total : ∀ a b : Text, lexLe a b = true ∨ lexLe b a = true := by
  intro a
  induction a with
  | nil => intro b; left; rfl
  | cons x xs ih =>
    intro b
    cases b with
    | nil => right; rfl
    | cons y ys =>
      by_cases h1 : x.toNat < y.toNat
      · left
        simp [lexLe, h1]
      · by_cases h2 : y.toNat < x.toNat
        · right
          simp [lexLe, h2]
        · rcases ih ys with h | h
          · left
            simp [lexLe, h1, h2, h]
          · right
            simp [lexLe, h1, h2, h]

theorem lexLe_trans : ∀ a b c : Text, lexLe a b = true → lexLe b c = true →
    lexLe a c = true := by
  intro a
  induction a with
  | nil => intro b c _ _; rfl
  | cons x xs ih =>
    intro b c hab hbc
    cases b with
    | nil => simp [lexLe] at hab
    | cons y ys =>
      cases c with
      | nil => simp [lexLe] at hbc
      | cons z zs =>
        simp only [lexLe] at hab hbc ⊢
        by_cases h1 : x.toNat < y.toNat
        · by_cases h2 : y.toNat < z.toNat
          · simp [show x.toNat < z.toNat by omega]
          · by_cases h2b : z.toNat < y.toNat
            · rw [if_neg h2, if_pos h2b] at hbc
              simp at hbc
            · simp [show x.toNat < z.toNat by omega]
        · by_cases h1b : y.toNat < x.toNat
          · rw [if_neg h1, if_pos h1b] at hab
            simp at hab
          · by_cases h2 : y.toNat < z.toNat
            · simp [show x.toNat < z.toNat by omega]
            · by_cases h2b : z.toNat < y.toNat
              · rw [if_neg h2, if_pos h2b] at hbc
                simp at hbc
              · rw [if_neg h1, if_neg h1b] at hab
                rw [if_neg h2, if_neg h2b] at hbc
                rw [if_neg (show ¬ x.toNat < z.toNat by omega),
                  if_neg (show ¬ z.toNat < x.toNat by omega)]
                exact ih ys zs hab hbc

/-- `strings.ToLower`, modelled on the ASCII range. -/
def lowerText (s : Text) : Text := s.map Char.toLower

/-- The comparison `FindContacts` sorts by:
`strings.ToLower(a.Title) < strings.ToLower(b.Title)` as a non-strict
total order (sortedness w.r.t. the strict `<` comparator is the same as
pairwise `≤`). -/
def titleLe (a b : Contact) : Prop :=
  lexLe (lowerText a.Title) (lowerText b.Title) = true

instance : DecidableRel titleLe := fun a b => by
  unfold titleLe
  infer_instance

instance : IsTotal Contact titleLe :=
  ⟨fun a b => lexLe_total (lowerText a.Title) (lowerText b.Title)⟩

instance : IsTrans Contact titleLe :=
  ⟨fun a b c => lexLe_trans (lowerText a.Title) (lowerText b.Title) (lowerText c.Title)⟩

/-- The filename filter of `FindContacts`'s walk: `.md` suffix and
`__contact` in the base name (directories are not in the model's file
list). -/
def isContactFileName (path : Text) : Bool :=
  ((".md").toList.isSuffixOf path) &&
    (indexOfSub (baseName path) (("__contact").toList)).isSome

/-- `FindContacts` from part_003: walk the directory (modelled as a list
of path/bytes pairs in arbitrary enumeration order), parse every file
passing the name filter, skip unparseable files, and sort by lowercased
title.  Go's `sort.Slice` (an unspecified comparison sort) is modelled
by insertion sort: both return a permutation of the input that is sorted
with respect to the comparator, which is all the claims concern. -/
def FindContacts (env : Env) (files : List (Text × Text)) (now : Int) : List Contact :=
  List.insertionSort titleLe
    (files.filterMap (fun f =>
      if isContactFileName f.1 then
        match ParseContactFile env f.1 f.2 now with
        | (c, none) => some { c with FilePath := f.1 }
        | (_, some _) => none
      else none))

/-- Claim C10: whatever the filesystem enumeration order, the record
list returned by the directory scan is sorted ascending by
case-insensitively compared (lowercased) titles. -/
theorem claim_C10_scan_sorted (env : Env) (files : List (Text × Text)) (now : Int) :
    List.Sorted titleLe (FindContacts env files now) := by
  unfold FindContacts
  exact List.sorted_insertionSort titleLe _

/- ============================================================
   Write-discipline model (SaveContactFile / counter save)
   ============================================================ -/

/-- Content of one on-disk file: absent, completely written, or torn by
an interrupted write. -/
inductive FileState where
  | absent
  | full (data : Text)
  | torn (data : Text)
deriving DecidableEq, Repr

/-- Destination file plus its temporary sibling. -/
structure CounterFS where
  dest : FileState
  temp : FileState
deriving DecidableEq, Repr

/-- Outcome oracle for one `os.WriteFile` call: success, or failure with
some prefix of the data on disk. -/
inductive WriteOutcome where
  | ok
  | failTorn (written : Text)
deriving DecidableEq, Repr

/-- Outcome oracle for one `os.Rename` call (atomic: on failure nothing
moved). -/
inductive RenameOutcome where
  | ok
  | fail
deriving DecidableEq, Repr

/-- `save` from id_counter.go: write the marshalled data to the `.tmp`
sibling (on failure the temp may be torn and is NOT removed), then
rename it over the destination (on failure `os.Remove(tempFile)` runs).
The JSON-marshal error branch cannot fire in the model.  Returns the new
file-system state and the error flag. -/
def counterSaveFS (fs : CounterFS) (data : Text) (w : WriteOutcome) (r : RenameOutcome) :
    CounterFS × Bool :=
  match w with
  | .failTorn wr => ({ fs with temp := FileState.torn wr }, true)
  | .ok =>
    match r with
    | .ok => ({ dest := FileState.full data, temp := FileState.absent }, false)
    | .fail => ({ dest := fs.dest, temp := FileState.absent }, true)

/-- The write `SaveContactFile` (part_003) performs: one direct
`os.WriteFile` on the destination — no temporary file, no rename. -/
def recordSaveFS (dest : FileState) (data : Text) (w : WriteOutcome) : FileState × Bool :=
  match w with
  | .ok => (FileState.full data, false)
  | .failTorn wr => (FileState.torn wr, true)

/-- Counterexample for claim C8: the record save writes the destination
directly, so a failed write leaves the destination torn — neither the
complete old nor the complete new content. -/
theorem claim_C8_counterexample :
    recordSaveFS (FileState.full ['o']) ['n'] (WriteOutcome.failTorn ['x']) =
      (FileState.torn ['x'], true) ∧
    FileState.torn ['x'] ≠ FileState.full ['o'] ∧
    FileState.torn ['x'] ≠ FileState.full ['n'] := by
  refine ⟨rfl, by decide, by decide⟩

/-- Claim C8 (amended): only the counter save follows the
write-temp-then-atomic-rename discipline, and it removes the temp file
only on the rename-failure path (a failed temp write leaves the temp
file behind); its destination always holds either the old state or the
complete new content.  The record save of part_003 is a single direct
write: success fully replaces the destination, failure can leave it
torn. -/
theorem claim_C8_write_discipline :
    (∀ (fs : CounterFS) (data : Text) (w : WriteOutcome) (r : RenameOutcome),
      (counterSaveFS fs data w r).1.dest = fs.dest ∨
        (counterSaveFS fs data w r).1.dest = FileState.full data) ∧
    (∀ (fs : CounterFS) (data : Text),
      (counterSaveFS fs data WriteOutcome.ok RenameOutcome.fail).1.temp = FileState.absent ∧
      (counterSaveFS fs data WriteOutcome.ok RenameOutcome.fail).2 = true) ∧
    (∀ (fs : CounterFS) (data wr : Text) (r : RenameOutcome),
      (counterSaveFS fs data (WriteOutcome.failTorn wr) r).1.temp = FileState.torn wr ∧
      (counterSaveFS fs data (WriteOutcome.failTorn wr) r).2 = true) ∧
    (∀ (d : FileState) (data : Text),
      recordSaveFS d data WriteOutcome.ok = (FileState.full data, false)) ∧
    (∀ (d : FileState) (data wr : Text),
      recordSaveFS d data (WriteOutcome.failTorn wr) = (FileState.torn wr, true)) := by
  refine ⟨?_, ?_, ?_, ?_, ?_⟩
  · intro fs data w r
    cases w with
    | failTorn wr => left; rfl
    | ok =>
      cases r with
      | ok => right; rfl
      | fail => left; rfl
  · intro fs data
    exact ⟨rfl, rfl⟩
  · intro fs data wr r
    exact ⟨rfl, rfl⟩
  · intro d data
    rfl
  · intro d data wr
    rfl
